import Mathlib

/-!
Verification of the `sidconv` BASIC converter (src/sidconv.py).

The program is embedded shallowly over `List Char`: each Python regex is
translated into an explicit matching function with the same backtracking
behaviour, and the two-pass `main` is the function `convert`.
-/

namespace Sidconv

/-- Python whitespace class `\s` restricted to the characters that can occur
in a text line (space, tab, newline, carriage return, vertical tab, form feed),
as used by `str.strip` and the `\s` regex class. -/
def isWs (c : Char) : Bool :=
  c == ' ' || c == '\t' || c == '\n' || c == '\r' || c == '\x0b' || c == '\x0c'

/-- Left strip: Python `lstrip()`. -/
def lstrip (l : List Char) : List Char := l.dropWhile isWs

/-- Right strip: Python `rstrip()`. -/
def rstrip (l : List Char) : List Char := (l.reverse.dropWhile isWs).reverse

/-- Python `strip()`. -/
def trim (l : List Char) : List Char := rstrip (lstrip l)

/-- `split_colon_statements` buffer loop: on each `:` the stripped buffer is
appended (even when empty); at the end the stripped tail is appended only when
non-empty. -/
def splitColonAux : List Char → List Char → List (List Char)
  | buf, [] => if trim buf = [] then [] else [trim buf]
  | buf, c :: rest =>
    if c = ':' then trim buf :: splitColonAux [] rest
    else splitColonAux (buf ++ [c]) rest

/-- `split_colon_statements` from the source. -/
def splitColon (s : List Char) : List (List Char) := splitColonAux [] s

/-- Case-insensitive literal prefix match (the pattern is given in upper case,
as in the `re.IGNORECASE` keyword literals); returns the remaining input. -/
def ciPrefix : List Char → List Char → Option (List Char)
  | [], s => some s
  | _ :: _, [] => none
  | p :: ps, c :: cs => if c.toUpper = p then ciPrefix ps cs else none

/-- Decimal value of a digit run, as Python `int` on a `\d+` group. -/
def natOfDigits (ds : List Char) : Nat :=
  ds.foldl (fun a c => a * 10 + (c.toNat - 48)) 0

/-- `LINE_NUM_RE = ^\s*(\d+)\s*(.*)$` applied by `main`, which then takes
`int(group(1))` and `group(2).strip()`.  Greedy `\s*(.*)$` makes the stripped
group 2 equal to the trimmed remainder after the digits. -/
def lineNumMatch (raw : List Char) : Option (Nat × List Char) :=
  let r := lstrip raw
  let ds := r.takeWhile Char.isDigit
  if ds = [] then none
  else some (natOfDigits ds, trim (r.drop ds.length))

/-- Tail of `ASSIGN_BASE_RE` after the variable name: `\s*=\s*54272\s*$`. -/
def assignTail (r : List Char) : Option Unit :=
  match lstrip r with
  | '=' :: r2 =>
    match lstrip r2 with
    | '5' :: '4' :: '2' :: '7' :: '2' :: r3 => if lstrip r3 = [] then some () else none
    | _ => none
  | _ => none

/-- The `([A-Z][A-Z0-9]?)` group (case-insensitive) followed by a continuation:
the two-character name is tried first (greedy `?`), backtracking to the
one-character name when the continuation fails on the longer match. -/
def nameThen {α : Type} (tail : List Char → Option α) : List Char → Option (List Char × α)
  | [] => none
  | c0 :: rest0 =>
    if c0.isAlpha then
      match rest0 with
      | [] => (tail []).map (fun a => ([c0], a))
      | c1 :: rest1 =>
        if c1.isAlphanum then
          match tail rest1 with
          | some a => some ([c0, c1], a)
          | none => (tail rest0).map (fun a => ([c0], a))
        else (tail rest0).map (fun a => ([c0], a))
    else none

/-- `ASSIGN_BASE_RE = ^\s*(?:LET\s+)?([A-Z][A-Z0-9]?)\s*=\s*54272\s*$`
(IGNORECASE).  The optional `LET\s+` branch is tried first; if the rest of the
pattern fails there, matching restarts without consuming `LET`. -/
def assignBaseMatch (s : List Char) : Option (List Char) :=
  let s1 := lstrip s
  let noLet := (nameThen assignTail s1).map (·.1)
  match ciPrefix "LET".data s1 with
  | none => noLet
  | some r =>
    match r with
    | [] => noLet
    | c :: _ =>
      if isWs c then
        match (nameThen assignTail (lstrip r)).map (·.1) with
        | some nm => some nm
        | none => noLet
      else noLet

/-- Tail of the variable-base address pattern `^([A-Z][A-Z0-9]?)(\+(.+))?$`
after the name: either end of string (offset absent) or `+` followed by a
non-empty remainder (the offset text). -/
def aliasTail (r : List Char) : Option (Option (List Char)) :=
  match r with
  | [] => some none
  | c :: rest =>
    if c = '+' then
      match rest with
      | [] => none
      | _ => some (some rest)
    else none

/-- The variable-base address matcher `^([A-Z][A-Z0-9]?)(\+(.+))?$`
(IGNORECASE) used inside `rewrite_poke`. -/
def aliasMatch (r : List Char) : Option (List Char × Option (List Char)) :=
  nameThen aliasTail r

/-- Python `int(s, 10)` digit part: digits with single underscores allowed
between digits. -/
def digitsValAux : Nat → List Char → Option Nat
  | acc, [] => some acc
  | acc, '_' :: c :: rest =>
    if c.isDigit then digitsValAux (acc * 10 + (c.toNat - 48)) rest else none
  | _, ['_'] => none
  | acc, c :: rest =>
    if c.isDigit then digitsValAux (acc * 10 + (c.toNat - 48)) rest else none

/-- Python `int(s, 10)` on an unsigned literal. -/
def digitsVal : List Char → Option Nat
  | [] => none
  | c :: rest => if c.isDigit then digitsValAux (c.toNat - 48) rest else none

/-- Python `int(s, 10)`: optional surrounding whitespace, optional sign,
then a base-10 digit run; `none` models the `ValueError` branch. -/
def pyInt (s : List Char) : Option Int :=
  match trim s with
  | '+' :: rest => (digitsVal rest).map (fun n => (n : Int))
  | '-' :: rest => (digitsVal rest).map (fun n => -(n : Int))
  | t => (digitsVal t).map (fun n => (n : Int))

/-- `re.sub(r"\s+", "", addr_expr)` on the stripped address expression. -/
def stripWsAll (l : List Char) : List Char := (trim l).filter (fun c => !(isWs c))

/-- The four address forms recognised by `rewrite_poke`, in source priority:
`54272+rest`, exactly `54272`, `alias+rest`, exactly `alias` (alias must be a
tracked base variable). -/
def sidOffset (noSp : List Char) (baseVars : List (List Char)) : Option (List Char) :=
  if "54272+".data.isPrefixOf noSp then some (noSp.drop 6)
  else if noSp = "54272".data then some ['0']
  else
    match aliasMatch noSp with
    | some (nm, o) => if nm.map Char.toUpper ∈ baseVars then some (o.getD ['0']) else none
    | none => none

/-- `rewrite_poke`: returns the `OUT REG`/`OUT DAT` statement pair, or `none`
when the address expression is not a recognised SID form.  With
`warn_out_of_range` set, a literal offset outside 0–24 appends a REM warning
to the data statement; a non-literal offset is silently skipped. -/
def rewritePoke (argAddr argVal : List Char) (baseVars : List (List Char))
    (warn : Bool) : Option (List Char × List Char) :=
  let valExpr := trim argVal
  let noSp := stripWsAll argAddr
  match sidOffset noSp baseVars with
  | none => none
  | some off =>
    let rem : List Char :=
      if warn then
        match pyInt off with
        | some n =>
          if n < 0 ∨ 24 < n then
            " : REM WARN: SID reg ".data ++ (toString n).data ++ " out of 0-24".data
          else []
        | none => []
      else []
    some ("OUT REG,".data ++ off, "OUT DAT,".data ++ valExpr ++ rem)

/-- The `(.+?)\s*$` value group of `POKE_STMT_RE` applied to the text after
the comma: greedy `\s*` first eats the whitespace; when everything after the
comma is whitespace the engine backtracks and the lazy group captures the
final whitespace character. -/
def g2Of (ac : List Char) : Option (List Char) :=
  match ac with
  | [] => none
  | _ :: _ =>
    match lstrip ac with
    | [] => (ac.getLast?).map (fun c => [c])
    | rem => some (rstrip rem)

/-- The `(.+?)\s*,` part of `POKE_STMT_RE`: the lazy address group grows from
one character until whitespace-then-comma follows, then the value group must
match the remainder. -/
def tryCommaAt (region : List Char) : Option (List Char × List Char) :=
  (List.range region.length).findSome? fun j =>
    let i := j + 1
    match lstrip (region.drop i) with
    | ',' :: ac => (g2Of ac).map (fun g2 => (region.take i, g2))
    | _ => none

/-- `POKE_STMT_RE = ^\s*POKE\s+(.+?)\s*,\s*(.+?)\s*$` (IGNORECASE).  The
greedy `\s+` is tried longest-first, shrinking (down to one character) when
no split succeeds after the full whitespace run. -/
def pokeMatch (s : List Char) : Option (List Char × List Char) :=
  match ciPrefix "POKE".data (lstrip s) with
  | none => none
  | some rest =>
    let kmax := (rest.takeWhile isWs).length
    if kmax = 0 then none
    else (List.range kmax).findSome? fun j => tryCommaAt (rest.drop (kmax - j))

/-- ANSI escape character. -/
def esc : Char := '\x1b'

/-- `ANSI_CHR_MAP`: PETSCII code to terminal escape sequence. -/
def ansiChr : Nat → Option (List Char)
  | 147 => some (esc :: "[2J".data ++ esc :: "[H".data)
  | 19 => some (esc :: "[H".data)
  | 17 => some (esc :: "[B".data)
  | 145 => some (esc :: "[A".data)
  | 157 => some (esc :: "[D".data)
  | 29 => some (esc :: "[C".data)
  | 5 => some (esc :: "[37m".data)
  | 28 => some (esc :: "[31m".data)
  | 30 => some (esc :: "[32m".data)
  | 31 => some (esc :: "[34m".data)
  | 144 => some (esc :: "[30m".data)
  | 18 => some (esc :: "[0m".data)
  | _ => none

/-- One attempted match of `CHR_CALL_RE = CHR\$\(\s*(\d+)\s*\)` (IGNORECASE)
at the head of the input: returns the matched text, the numeral value and the
remaining input. -/
def chrTry (s : List Char) : Option (List Char × Nat × List Char) :=
  match s with
  | c1 :: c2 :: c3 :: '$' :: '(' :: r =>
    if c1.toUpper = 'C' ∧ c2.toUpper = 'H' ∧ c3.toUpper = 'R' then
      let w1 := r.takeWhile isWs
      let r1 := r.drop w1.length
      let ds := r1.takeWhile Char.isDigit
      if ds = [] then none
      else
        let r2 := r1.drop ds.length
        let w2 := r2.takeWhile isWs
        match r2.drop w2.length with
        | ')' :: r3 =>
          some (c1 :: c2 :: c3 :: '$' :: '(' :: (w1 ++ ds ++ w2 ++ [')']), natOfDigits ds, r3)
        | _ => none
    else none
  | _ => none

/-- Left-to-right scan of `CHR_CALL_RE.sub`: mapped codes are replaced by a
quoted escape string, unmapped matches are kept verbatim.  The fuel starts at
the input length; every step consumes at least one character, so the fuel
never runs out before the input does. -/
def mapChrGo : Nat → List Char → List Char
  | 0, s => s
  | _ + 1, [] => []
  | fuel + 1, c :: rest =>
    match chrTry (c :: rest) with
    | some (orig, n, after) =>
      (match ansiChr n with
       | some e => '"' :: (e ++ ['"'])
       | none => orig) ++ mapChrGo fuel after
    | none => c :: mapChrGo fuel rest

/-- `map_chr_calls_to_profile`: identity unless the profile is `ansi`. -/
def mapChr (profile s : List Char) : List Char :=
  if profile = "ansi".data then mapChrGo s.length s else s

/-- Tail of `FOR_RE` after the variable name: `\s*=\s*1\s+TO\s*(\d+)\s*$`. -/
def forTail (r : List Char) : Option (List Char) :=
  match lstrip r with
  | '=' :: r2 =>
    match lstrip r2 with
    | '1' :: r3 =>
      match r3 with
      | [] => none
      | c3 :: _ =>
        if isWs c3 then
          match ciPrefix "TO".data (lstrip r3) with
          | some r4 =>
            let r5 := lstrip r4
            let ds := r5.takeWhile Char.isDigit
            if ds ≠ [] ∧ lstrip (r5.drop ds.length) = [] then some ds else none
          | none => none
        else none
    | _ => none
  | _ => none

/-- `FOR_RE = ^\s*FOR\s+([A-Z][A-Z0-9]?)\s*=\s*1\s+TO\s*(\d+)\s*$`
(IGNORECASE); returns the variable (original case) and the bound digits. -/
def forMatch (s : List Char) : Option (List Char × List Char) :=
  match ciPrefix "FOR".data (lstrip s) with
  | none => none
  | some r =>
    match r with
    | [] => none
    | c :: _ => if isWs c then nameThen forTail (lstrip r) else none

/-- Tail of the GET pattern after the variable name: `\$?\s*$`. -/
def getTail (r : List Char) : Option Unit :=
  match r with
  | '$' :: r2 => if lstrip r2 = [] then some () else none
  | _ => if lstrip r = [] then some () else none

/-- `^\s*GET\s+([A-Z][A-Z0-9]?)\$?\s*$` (IGNORECASE) from the
`--map-get-to-inkey` branch of `process_line_body`. -/
def getMatch (s : List Char) : Option (List Char) :=
  match ciPrefix "GET".data (lstrip s) with
  | none => none
  | some r =>
    match r with
    | [] => none
    | c :: _ =>
      if isWs c then (nameThen getTail (lstrip r)).map (·.1) else none

/-- The optional FOR-loop scaling step of `process_line_body`: active only
when the factor argument is present, non-zero and greater than 1; a matching
statement with an eligible variable is re-rendered as
`FOR <var>=1 TO <bound*factor>`. -/
def scaleStmt (scaleFor : Option Int) (vars : List (List Char)) (s : List Char) : List Char :=
  match scaleFor with
  | none => s
  | some f =>
    if 1 < f then
      match forMatch s with
      | some (v, ds) =>
        if v.map Char.toUpper ∈ vars then
          "FOR ".data ++ v ++ "=1 TO ".data ++ (toString ((natOfDigits ds : Int) * f)).data
        else s
      | none => s
    else s

/-- The per-statement rewrite chain of `process_line_body` after scaling:
GET substitution (when enabled), then the POKE rewrite (expanding to two
statements), then the screen-profile CHR$ mapping on anything not already
consumed. -/
def stmtRewriteCore (mapGet warn : Bool) (profile : List Char)
    (baseVars : List (List Char)) (s : List Char) : List (List Char) :=
  match (if mapGet then getMatch s else none) with
  | some v => [v.map Char.toUpper ++ "$=INKEY$".data]
  | none =>
    match pokeMatch s with
    | some (addr, val) =>
      match rewritePoke addr val baseVars warn with
      | some (r, d) => [r, d]
      | none => [mapChr profile s]
    | none => [mapChr profile s]

/-- Concatenation of the per-element lists, as the Python loop appending into
`out_parts`. -/
def flatMapL {α β : Type} (f : α → List β) : List α → List β
  | [] => []
  | a :: as => f a ++ flatMapL f as

/-- `':'.join`. -/
def joinColon : List (List Char) → List Char
  | [] => []
  | [p] => p
  | p :: ps => p ++ ':' :: joinColon ps

/-- The whole per-statement pipeline applied to one split statement:
strip, optional FOR scaling, then the rewrite chain. -/
def pipelineStmt (mapGet warn : Bool) (profile : List Char) (baseVars : List (List Char))
    (scaleFor : Option Int) (vars : List (List Char)) (s : List Char) : List (List Char) :=
  stmtRewriteCore mapGet warn profile baseVars (scaleStmt scaleFor vars (trim s))

/-- `process_line_body`: split on colons, run every statement through the
pipeline, rejoin with colons. -/
def processLineBody (body : List Char) (baseVars : List (List Char)) (warn : Bool)
    (scaleFor : Option Int) (vars : List (List Char)) (profile : List Char)
    (mapGet : Bool) : List Char :=
  joinColon (flatMapL (pipelineStmt mapGet warn profile baseVars scaleFor vars) (splitColon body))

/-- The post-pipeline rewrite of base-variable assignments in `main`: within
the processed body, each statement matching the assignment pattern with a
tracked name is replaced by `NAME=0`; the body is rejoined only when at least
one replacement happened. -/
def baseAssignRewrite (baseVars : List (List Char)) (nb : List Char) : List Char :=
  let stmts := splitColon nb
  let mapped := stmts.map fun st =>
    match assignBaseMatch st with
    | some nm => if nm.map Char.toUpper ∈ baseVars then nm.map Char.toUpper ++ "=0".data else st
    | none => st
  let replaced := stmts.any fun st =>
    match assignBaseMatch st with
    | some nm => decide (nm.map Char.toUpper ∈ baseVars)
    | none => false
  if replaced then joinColon mapped else nb

/-- Command-line options of the converter (ports, flags, scaling set,
screen profile), after argument parsing. -/
structure Opts where
  reg : Int
  dat : Int
  warn : Bool
  scaleFor : Int
  scaleVars : List (List Char)
  profile : List Char
  mapGet : Bool

/-- The default option values of `parse_args`. -/
def defaultOpts : Opts :=
  ⟨212, 213, false, 0, ["T".data, "W".data, "DELAY".data, "D".data], "ansi".data, false⟩

/-- Pass 1 line classification: a numbered line keeps its number and stripped
body; a non-numbered line is kept as its right-stripped raw text. -/
def parseLine (raw : List Char) : Option Nat × List Char :=
  match lineNumMatch raw with
  | some (n, b) => (some n, b)
  | none => (none, rstrip raw)

/-- Pass 1 base-variable scan: every colon statement of every numbered line
is tested against the assignment pattern; matched names are collected
uppercased. -/
def baseVarsOf (lines : List (List Char)) : List (List Char) :=
  flatMapL (fun raw =>
    match lineNumMatch raw with
    | some (_, body) => (splitColon body).filterMap fun st =>
        (assignBaseMatch st).map (List.map Char.toUpper)
    | none => []) lines

/-- The number of the first numbered line, in input order. -/
def firstLineNum (lines : List (List Char)) : Option Nat :=
  lines.findSome? fun raw => (lineNumMatch raw).map (·.1)

/-- The header body `B=0:REG=<reg>:DAT=<dat>`. -/
def headerText (opts : Opts) : List Char :=
  "B=0:REG=".data ++ (toString opts.reg).data ++ ":DAT=".data ++ (toString opts.dat).data

/-- The synthesized header line: numbered `max(0, first - 5)` when a numbered
line exists, else the fixed fallback number 5. -/
def headerLine (opts : Opts) (lines : List (List Char)) : List Char :=
  match firstLineNum lines with
  | some n => (toString (max 0 ((n : Int) - 5))).data ++ ' ' :: headerText opts
  | none => '5' :: ' ' :: headerText opts

/-- Pass 2 for a single parsed line: non-numbered lines pass through; a
numbered line gets its body processed, base assignments zeroed, and is
re-serialized as `<n> <body>` (bare `<n>` when the body strips to empty). -/
def renderLine (opts : Opts) (baseVars : List (List Char)) : Option Nat × List Char → List Char
  | (none, body) => body
  | (some ln, body) =>
    let nb := processLineBody body baseVars opts.warn
      (if 0 < opts.scaleFor then some opts.scaleFor else none)
      opts.scaleVars opts.profile opts.mapGet
    let nb2 := baseAssignRewrite baseVars nb
    if trim nb2 = [] then (toString ln).data else (toString ln).data ++ ' ' :: nb2

/-- `main` without the file I/O: the list of output lines for a list of input
lines. -/
def convert (opts : Opts) (lines : List (List Char)) : List (List Char) :=
  headerLine opts lines :: (lines.map parseLine).map (renderLine opts (baseVarsOf lines))

/-- Prepend a buffer onto the first segment of a segment list. -/
def consFirst (buf : List Char) : List (List Char) → List (List Char)
  | [] => [buf]
  | h :: t => (buf ++ h) :: t

/-- Plain split on the colon character, keeping every (possibly empty)
segment between delimiter occurrences; written from the amended reading of
the specification of the statement splitter. -/
def splitOnColonRaw : List Char → List (List Char)
  | [] => [[]]
  | c :: rest =>
    if c = ':' then [] :: splitOnColonRaw rest
    else consFirst [c] (splitOnColonRaw rest)

/-- Drop the last segment exactly when it is empty; written from the amended
reading of the specification (only an empty trailing segment is dropped). -/
def dropLastEmpty : List (List Char) → List (List Char)
  | [] => []
  | [x] => if x = [] then [] else [x]
  | x :: y :: ys => x :: dropLastEmpty (y :: ys)

/-- Specification-side splitter: the trimmed segments between delimiter
occurrences, with only an empty trailing segment dropped. -/
def splitColonSpec (s : List Char) : List (List Char) :=
  dropLastEmpty ((splitOnColonRaw s).map trim)

/-- A statement counts as a recognised sound-chip POKE when the statement
pattern matches and `rewrite_poke` accepts the address expression. -/
def pokeRecognized (bv : List (List Char)) (st : List Char) : Bool :=
  match pokeMatch st with
  | some (a, v) => (rewritePoke a v bv false).isSome
  | none => false

theorem consFirst_ne_nil (buf : List Char) (L : List (List Char)) : consFirst buf L ≠ [] := by
  cases L <;> simp [consFirst]

theorem splitOnColonRaw_ne_nil (s : List Char) : splitOnColonRaw s ≠ [] := by
  cases s with
  | nil => simp [splitOnColonRaw]
  | cons c rest =>
    by_cases h : c = ':' <;> simp [splitOnColonRaw, h, consFirst_ne_nil]

theorem consFirst_nil (L : List (List Char)) (h : L ≠ []) : consFirst [] L = L := by
  cases L with
  | nil => exact absurd rfl h
  | cons x t => simp [consFirst]

theorem dropLastEmpty_cons (x : List Char) (L : List (List Char)) (h : L ≠ []) :
    dropLastEmpty (x :: L) = x :: dropLastEmpty L := by
  cases L with
  | nil => exact absurd rfl h
  | cons y ys => rfl

theorem head_lstrip_not_ws (l : List Char) (c : Char) (h : (lstrip l).head? = some c) :
    isWs c = false := by
  induction l with
  | nil => simp [lstrip] at h
  | cons a l ih =>
    rw [lstrip, List.dropWhile_cons] at h
    by_cases ha : isWs a = true
    · rw [if_pos ha] at h
      exact ih h
    · rw [if_neg ha] at h
      simp only [List.head?_cons, Option.some.injEq] at h
      subst h
      simpa using ha

theorem lstrip_eq_self (l : List Char) (h : ∀ c, l.head? = some c → isWs c = false) :
    lstrip l = l := by
  cases l with
  | nil => rfl
  | cons a t =>
    have := h a rfl
    simp [lstrip, List.dropWhile_cons, this]

theorem rstrip_eq_self (l : List Char) (h : ∀ c, l.getLast? = some c → isWs c = false) :
    rstrip l = l := by
  have hrev : ∀ c, l.reverse.head? = some c → isWs c = false := by
    intro c hc
    rw [List.head?_reverse] at hc
    exact h c hc
  rw [rstrip]
  have : l.reverse.dropWhile isWs = l.reverse := lstrip_eq_self l.reverse hrev
  rw [this, List.reverse_reverse]

theorem trim_eq_self (l : List Char)
    (hh : ∀ c, l.head? = some c → isWs c = false)
    (hl : ∀ c, l.getLast? = some c → isWs c = false) : trim l = l := by
  rw [trim, lstrip_eq_self l hh, rstrip_eq_self l hl]

theorem trim_trim (l : List Char) : trim (trim l) = trim l := by
  set x := lstrip l with hx
  have hxhead : ∀ c, x.head? = some c → isWs c = false := fun c hc => head_lstrip_not_ws l c hc
  have hsplit : x = rstrip x ++ (x.reverse.takeWhile isWs).reverse := by
    have h1 : x.reverse.takeWhile isWs ++ x.reverse.dropWhile isWs = x.reverse :=
      List.takeWhile_append_dropWhile isWs x.reverse
    have h2 := congrArg List.reverse h1
    rw [List.reverse_append, List.reverse_reverse] at h2
    exact h2.symm
  have hyhead : ∀ c, (rstrip x).head? = some c → isWs c = false := by
    intro c hc
    apply hxhead c
    rw [hsplit]
    cases hy : rstrip x with
    | nil => rw [hy] at hc; simp at hc
    | cons d ds =>
      rw [hy] at hc
      simp only [List.head?_cons, Option.some.injEq] at hc
      subst hc
      simp
  have hylast : ∀ c, (rstrip x).getLast? = some c → isWs c = false := by
    intro c hc
    rw [rstrip, List.getLast?_reverse] at hc
    exact head_lstrip_not_ws x.reverse c hc
  calc trim (trim l) = rstrip (lstrip (rstrip x)) := rfl
    _ = rstrip (rstrip x) := by rw [lstrip_eq_self _ hyhead]
    _ = rstrip x := rstrip_eq_self _ hylast
    _ = trim l := rfl

theorem splitColonAux_spec (s : List Char) : ∀ buf,
    splitColonAux buf s = dropLastEmpty ((consFirst buf (splitOnColonRaw s)).map trim) := by
  induction s with
  | nil =>
    intro buf
    simp [splitColonAux, splitOnColonRaw, consFirst, dropLastEmpty]
  | cons c rest ih =>
    intro buf
    by_cases hc : c = ':'
    · have hne : (splitOnColonRaw rest).map trim ≠ [] := by
        simpa using splitOnColonRaw_ne_nil rest
      rw [splitColonAux, if_pos hc, ih [], consFirst_nil _ (splitOnColonRaw_ne_nil rest)]
      rw [splitOnColonRaw, if_pos hc, consFirst, List.append_nil, List.map_cons,
        dropLastEmpty_cons _ _ hne]
    · rw [splitColonAux, if_neg hc, ih (buf ++ [c]), splitOnColonRaw, if_neg hc]
      congr 2
      cases hL : splitOnColonRaw rest with
      | nil => exact absurd hL (splitOnColonRaw_ne_nil rest)
      | cons h t => simp [consFirst]

theorem mem_splitColonAux_trim (s : List Char) : ∀ buf x, x ∈ splitColonAux buf s →
    trim x = x := by
  induction s with
  | nil =>
    intro buf x hx
    rw [splitColonAux] at hx
    by_cases h : trim buf = []
    · rw [if_pos h] at hx; simp at hx
    · rw [if_neg h] at hx
      simp only [List.mem_singleton] at hx
      subst hx
      exact trim_trim buf
  | cons c rest ih =>
    intro buf x hx
    rw [splitColonAux] at hx
    by_cases hc : c = ':'
    · rw [if_pos hc] at hx
      rcases List.mem_cons.mp hx with h | h
      · subst h; exact trim_trim buf
      · exact ih [] x h
    · rw [if_neg hc] at hx
      exact ih (buf ++ [c]) x hx

theorem mem_splitColon_trim (s x : List Char) (hx : x ∈ splitColon s) : trim x = x :=
  mem_splitColonAux_trim s [] x hx

theorem flatMapL_singleton {α : Type} (l : List α) (f : α → List α)
    (h : ∀ x ∈ l, f x = [x]) : flatMapL f l = l := by
  induction l with
  | nil => rfl
  | cons a t ih =>
    rw [flatMapL, h a (List.mem_cons_self a t), ih fun x hx => h x (List.mem_cons_of_mem a hx)]
    rfl

theorem mem_flatMapL {α β : Type} (f : α → List β) (l : List α) (b : β) :
    b ∈ flatMapL f l ↔ ∃ a ∈ l, b ∈ f a := by
  induction l with
  | nil => simp [flatMapL]
  | cons x t ih => simp [flatMapL, ih]

end Sidconv

namespace Sidconv

example : splitColonSpec "A::B".data = ["A".data, [], "B".data] := by decide
example : splitColonSpec "A: ".data = ["A".data] := by decide

example : convert defaultOpts ["10 POKE B+4,9".data, "20 B=54272".data] =
    ["5 B=0:REG=212:DAT=213".data, "10 OUT REG,4:OUT DAT,9".data, "20 B=0".data] := by decide

example : convert defaultOpts ["100 PRINT 1".data] =
    ["95 B=0:REG=212:DAT=213".data, "100 PRINT 1".data] := by decide

example : convert defaultOpts ["PRINT".data] =
    ["5 B=0:REG=212:DAT=213".data, "PRINT".data] := by decide

example : convert defaultOpts ["3 PRINT".data] =
    ["0 B=0:REG=212:DAT=213".data, "3 PRINT".data] := by decide

example : convert defaultOpts ["10".data] =
    ["5 B=0:REG=212:DAT=213".data, "10".data] := by decide

example : pokeMatch "  POKE 54272+5,10 ".data = some ("54272+5".data, "10".data) := by decide
example : pokeMatch "POKE B+,5".data = some ("B+".data, "5".data) := by decide
example : pokeMatch "POKE  ,5".data = some (" ".data, "5".data) := by decide
example : pokeMatch "POKE ,5,6".data = some (",5".data, "6".data) := by decide
example : pokeMatch "POKE A,".data = none := by decide
example : pokeMatch "POKE a , b , c".data = some ("a".data, "b , c".data) := by decide
example : pokeMatch "POKE A, ".data = some ("A".data, " ".data) := by decide
example : pokeMatch "POKER 1,2".data = none := by decide
example : pokeMatch "OUT REG,5".data = none := by decide
example : mapChr "ansi".data "PRINT CHR$(19);CHR$( 17 )".data =
    ("PRINT \"".data ++ esc :: "[H\";\"".data ++ esc :: "[B\"".data) := by decide
example : mapChr "ansi".data "PRINT CHR$(1)".data = "PRINT CHR$(1)".data := by decide
example : mapChr "none".data "PRINT CHR$(19)".data = "PRINT CHR$(19)".data := by decide
example : forMatch "FOR T=1 TO 50".data = some ("T".data, "50".data) := by decide
example : forMatch "for t = 1 to 50".data = some ("t".data, "50".data) := by decide
example : forMatch "FOR T=2 TO 50".data = none := by decide
example : forMatch "FOR T=1 TO 50 STEP 2".data = none := by decide
example : forMatch "FOR T=12 TO 50".data = none := by decide
example : forMatch "FOR T=1 TO50".data = some ("T".data, "50".data) := by decide
example : getMatch "GET X$".data = some "X".data := by decide
example : getMatch "GET X".data = some "X".data := by decide
example : getMatch "GET ABC".data = none := by decide
example : scaleStmt (some 3) ["T".data] "FOR T=1 TO 50".data = "FOR T=1 TO 150".data := by decide
example : scaleStmt (some 3) ["W".data] "FOR T=1 TO 50".data = "FOR T=1 TO 50".data := by decide
example : scaleStmt (some 1) ["T".data] "for T=1 to 50".data = "for T=1 to 50".data := by decide
example : scaleStmt (some 3) ["T".data] "for T=1 to 50".data = "FOR T=1 TO 150".data := by decide
example : processLineBody "POKE 54272+5,10".data [] false none [] "ansi".data false =
    "OUT REG,5:OUT DAT,10".data := by decide
example : processLineBody "X=1 : POKE 54272+0,Y : PRINT X".data [] false none [] "ansi".data false =
    "X=1:OUT REG,0:OUT DAT,Y:PRINT X".data := by decide

example : assignBaseMatch "B=54272".data = some "B".data := by decide
example : assignBaseMatch "  let b1 = 54272  ".data = some "b1".data := by decide
example : assignBaseMatch "LET=54272".data = none := by decide
example : assignBaseMatch "LETX=54272".data = none := by decide
example : assignBaseMatch "B=542720".data = none := by decide
example : lineNumMatch "  10  PRINT X ".data = some (10, "PRINT X".data) := by decide
example : lineNumMatch "X10".data = none := by decide
example : rewritePoke "54272+5".data "10".data [] false =
    some ("OUT REG,5".data, "OUT DAT,10".data) := by decide
example : rewritePoke "54272".data "10".data [] false =
    some ("OUT REG,0".data, "OUT DAT,10".data) := by decide
example : rewritePoke "B+4".data "9".data ["B".data] false =
    some ("OUT REG,4".data, "OUT DAT,9".data) := by decide
example : rewritePoke "b".data "9".data ["B".data] false =
    some ("OUT REG,0".data, "OUT DAT,9".data) := by decide
example : rewritePoke "B+".data "9".data ["B".data] false = none := by decide
example : rewritePoke "54272+".data "9".data [] true =
    some ("OUT REG,".data, "OUT DAT,9".data) := by decide
example : rewritePoke "54272+30".data "1".data [] true =
    some ("OUT REG,30".data, "OUT DAT,1 : REM WARN: SID reg 30 out of 0-24".data) := by decide
example : rewritePoke "54272+30".data "1".data [] false =
    some ("OUT REG,30".data, "OUT DAT,1".data) := by decide
example : rewritePoke "54272+X".data "1".data [] true =
    some ("OUT REG,X".data, "OUT DAT,1".data) := by decide
example : rewritePoke "54272+-3".data "1".data [] true =
    some ("OUT REG,-3".data, "OUT DAT,1 : REM WARN: SID reg -3 out of 0-24".data) := by decide
example : rewritePoke "C+1".data "1".data ["B".data] false = none := by decide

end Sidconv

namespace Sidconv

/-- Claim C8, counterexample: on `A::B` the splitter emits a separate empty
entry for the consecutive internal delimiters, contradicting the claim that
consecutive internal delimiters yield no separately emitted empty entries. -/
theorem C8_counterexample :
    splitColon "A::B".data = ["A".data, [], "B".data] ∧ [] ∈ splitColon "A::B".data := by
  decide

/-- Claim C8 (amended): for every input string the statement splitter returns
the ordered list of trimmed segments between delimiter occurrences, where
only an empty trailing segment is dropped; internal empty segments (from
consecutive delimiters) are emitted. -/
theorem C8_splitter_amended (s : List Char) : splitColon s = splitColonSpec s := by
  rw [splitColon, splitColonAux_spec s [], consFirst_nil _ (splitOnColonRaw_ne_nil s),
    splitColonSpec]

/-- Claim C4, counterexample: a body with spaced delimiters, containing no
recognised sound-chip POKE, processed under the no-op profile (screen profile
`none`, no flags), is not reproduced exactly: the statements are trimmed. -/
theorem C4_counterexample :
    ((splitColon "PRINT 1 : PRINT 2".data).all fun st => !(pokeRecognized [] st)) = true
    ∧ processLineBody "PRINT 1 : PRINT 2".data [] false none [] "none".data false =
        "PRINT 1:PRINT 2".data
    ∧ "PRINT 1:PRINT 2".data ≠ "PRINT 1 : PRINT 2".data := by
  refine ⟨by decide, by decide, by decide⟩

/-- Claim C4 (amended): under a no-op rewrite profile (screen profile `none`,
no flags, no statement recognised as a sound-chip POKE) the processed body is
the colon-rejoin of the trimmed split statements; it equals the original body
only when the body is already in that normal form. -/
theorem C4_noop_roundtrip (body : List Char) (bv vars : List (List Char))
    (h : ∀ st ∈ splitColon body, pokeRecognized bv st = false) :
    processLineBody body bv false none vars "none".data false =
      joinColon (splitColon body) := by
  rw [processLineBody]
  congr 1
  apply flatMapL_singleton
  intro st hst
  have htrim : trim st = st := mem_splitColon_trim body st hst
  have hmap : mapChr "none".data st = st := by
    rw [mapChr, if_neg (by decide)]
  have hscale : scaleStmt none vars (trim st) = trim st := rfl
  rw [pipelineStmt, hscale, htrim]
  have h' := h st hst
  rw [pokeRecognized] at h'
  cases hp : pokeMatch st with
  | none =>
    rw [stmtRewriteCore, hp]
    show [mapChr "none".data st] = [st]
    rw [hmap]
  | some av =>
    obtain ⟨a, v⟩ := av
    have h'' : (rewritePoke a v bv false).isSome = false := by
      rw [hp] at h'
      exact h'
    have hr : rewritePoke a v bv false = none := by
      cases hrw : rewritePoke a v bv false with
      | none => rfl
      | some p => rw [hrw] at h''; simp at h''
    rw [stmtRewriteCore, hp]
    show (match rewritePoke a v bv false with
      | some (r, d) => [r, d]
      | none => [mapChr "none".data st]) = [st]
    rw [hr]
    show [mapChr "none".data st] = [st]
    rw [hmap]

/-- Claim C4 witness: the amended round-trip at a concrete body. -/
theorem C4_noop_roundtrip_witness :
    processLineBody "PRINT A : GOTO 10".data [] false none [] "none".data false =
      joinColon (splitColon "PRINT A : GOTO 10".data) :=
  C4_noop_roundtrip "PRINT A : GOTO 10".data [] [] (by decide)

/-- Claim C7, counterexample: a non-numbered line with trailing whitespace is
not carried through character for character; its trailing whitespace is
stripped. -/
theorem C7_counterexample :
    (convert defaultOpts ["A ".data]).get? 1 = some "A".data
    ∧ "A".data ≠ "A ".data := by
  refine ⟨by decide, by decide⟩

/-- Claim C7 (amended): every line that does not begin with a line number
appears in the output right-stripped (trailing whitespace removed, otherwise
unchanged), at output position `i + 1` for input position `i`, hence in
original relative order after the header. -/
theorem C7_unnumbered_passthrough (opts : Opts) (lines : List (List Char)) (i : Nat)
    (raw : List Char) (h1 : lines.get? i = some raw) (h2 : lineNumMatch raw = none) :
    (convert opts lines).get? (i + 1) = some (rstrip raw) := by
  rw [convert, List.get?_cons_succ, List.get?_map, List.get?_map, h1]
  simp [parseLine, h2, renderLine]

/-- Claim C7 witness: a concrete non-numbered line at input position 0
appears right-stripped at output position 1. -/
theorem C7_unnumbered_passthrough_witness :
    (convert defaultOpts ["REM X ".data]).get? 1 = some (rstrip "REM X ".data) :=
  C7_unnumbered_passthrough defaultOpts ["REM X ".data] 0 "REM X ".data rfl (by decide)

theorem isPrefixOf_append_self (l t : List Char) : l.isPrefixOf (l ++ t) = true := by
  induction l with
  | nil => simp [List.isPrefixOf]
  | cons a as ih => simp [List.isPrefixOf, ih]

theorem sidOffset_literal_plus (off : List Char) (bv : List (List Char)) :
    sidOffset ("54272+".data ++ off) bv = some off := by
  rw [sidOffset, if_pos (isPrefixOf_append_self "54272+".data off)]
  have h6 : ("54272+".data).length = 6 := rfl
  rw [← h6, List.drop_left]

theorem rewritePoke_of_offset (argAddr argVal : List Char) (bv : List (List Char))
    (off : List Char) (h : sidOffset (stripWsAll argAddr) bv = some off) :
    rewritePoke argAddr argVal bv false =
      some ("OUT REG,".data ++ off, "OUT DAT,".data ++ trim argVal) := by
  simp [rewritePoke, h]

/-- Claim C1: a statement recognised as a POKE whose whitespace-stripped
address expression is the literal `54272` followed by `+` and an offset text
is replaced by exactly the two statements `OUT REG,<offset>` and
`OUT DAT,<value>` (the value trimmed at the ends); in particular, with
default options `POKE 54272+5,10` becomes exactly `OUT REG,5:OUT DAT,10`. -/
theorem C1_literal_poke_rewrite (s addr val off : List Char)
    (bv vars : List (List Char))
    (hm : pokeMatch s = some (addr, val))
    (ha : stripWsAll addr = "54272+".data ++ off)
    (ht : trim s = s) :
    pipelineStmt false false "ansi".data bv none vars s =
      ["OUT REG,".data ++ off, "OUT DAT,".data ++ trim val]
    ∧ processLineBody "POKE 54272+5,10".data [] false none [] "ansi".data false =
      "OUT REG,5:OUT DAT,10".data := by
  refine ⟨?_, by decide⟩
  have hrw : rewritePoke addr val bv false =
      some ("OUT REG,".data ++ off, "OUT DAT,".data ++ trim val) := by
    apply rewritePoke_of_offset
    rw [ha]
    exact sidOffset_literal_plus off bv
  have hscale : scaleStmt none vars (trim s) = trim s := rfl
  rw [pipelineStmt, hscale, ht, stmtRewriteCore, hm]
  show (match rewritePoke addr val bv false with
    | some (r, d) => [r, d]
    | none => [mapChr "ansi".data s]) = _
  rw [hrw]

/-- Claim C1 witness: the general rewrite applied to the concrete statement
`POKE 54272+5,10`. -/
theorem C1_literal_poke_rewrite_witness :
    pipelineStmt false false "ansi".data [] none [] "POKE 54272+5,10".data =
      ["OUT REG,".data ++ "5".data, "OUT DAT,".data ++ trim "10".data] :=
  (C1_literal_poke_rewrite "POKE 54272+5,10".data "54272+5".data "10".data "5".data
    [] [] (by decide) (by decide) (by decide)).1

/-- Claim C5: for a recognised sound-chip POKE, with range-warning enabled a
literal offset outside 0–24 appends the REM annotation containing the parsed
value to the data statement; a non-literal offset appends nothing even with
the flag on; with the flag off nothing is ever appended. -/
theorem C5_range_warning (addr val off : List Char) (bv : List (List Char))
    (h : sidOffset (stripWsAll addr) bv = some off) :
    (∀ n : Int, pyInt off = some n → (n < 0 ∨ 24 < n) →
      rewritePoke addr val bv true =
        some ("OUT REG,".data ++ off,
          "OUT DAT,".data ++ trim val ++
            (" : REM WARN: SID reg ".data ++ (toString n).data ++ " out of 0-24".data)))
    ∧ (pyInt off = none →
      rewritePoke addr val bv true =
        some ("OUT REG,".data ++ off, "OUT DAT,".data ++ trim val))
    ∧ rewritePoke addr val bv false =
        some ("OUT REG,".data ++ off, "OUT DAT,".data ++ trim val) := by
  refine ⟨?_, ?_, ?_⟩
  · intro n hn hrange
    simp [rewritePoke, h, hn, if_pos hrange]
  · intro hn
    simp [rewritePoke, h, hn]
  · simp [rewritePoke, h]

/-- Claim C5 witness: `POKE 54272+30,1` gets the out-of-range annotation with
the flag on, and no annotation with the flag off; a symbolic offset `X` gets
no annotation even with the flag on. -/
theorem C5_range_warning_witness :
    rewritePoke "54272+30".data "1".data [] true =
      some ("OUT REG,".data ++ "30".data,
        "OUT DAT,".data ++ trim "1".data ++
          (" : REM WARN: SID reg ".data ++ (toString (30 : Int)).data ++ " out of 0-24".data))
    ∧ rewritePoke "54272+X".data "1".data [] true =
      some ("OUT REG,".data ++ "X".data, "OUT DAT,".data ++ trim "1".data)
    ∧ rewritePoke "54272+30".data "1".data [] false =
      some ("OUT REG,".data ++ "30".data, "OUT DAT,".data ++ trim "1".data) :=
  ⟨(C5_range_warning "54272+30".data "1".data "30".data [] (by decide)).1 30
      (by decide) (by decide),
   (C5_range_warning "54272+X".data "1".data "X".data [] (by decide)).2.1 (by decide),
   (C5_range_warning "54272+30".data "1".data "30".data [] (by decide)).2.2⟩

theorem isWs_false_of_alpha (c : Char) (h : c.isAlpha = true) : isWs c = false := by
  cases hw : isWs c
  · rfl
  · exfalso
    rw [isWs] at hw
    simp only [Bool.or_eq_true, beq_iff_eq] at hw
    rcases hw with ((((rfl | rfl) | rfl) | rfl) | rfl) | rfl <;> exact absurd h (by decide)

theorem isWs_false_of_alnum (c : Char) (h : c.isAlphanum = true) : isWs c = false := by
  cases hw : isWs c
  · rfl
  · exfalso
    rw [isWs] at hw
    simp only [Bool.or_eq_true, beq_iff_eq] at hw
    rcases hw with ((((rfl | rfl) | rfl) | rfl) | rfl) | rfl <;> exact absurd h (by decide)

/-- Claim C10: an address that is the base literal followed by a bare `+` is
accepted with an empty offset, producing `OUT REG,` and the data output; an
address that is a (one- or two-character) variable name followed by a bare
`+` fails the alias pattern, so `rewrite_poke` rejects it and a statement
such as `POKE B+,5` passes through the pipeline unmodified. -/
theorem C10_bare_plus (val : List Char) (bv : List (List Char)) (warn : Bool)
    (c0 c1 : Char) (h0 : c0.isAlpha = true) (h1 : c1.isAlphanum = true) :
    rewritePoke "54272+".data val bv warn =
      some ("OUT REG,".data, "OUT DAT,".data ++ trim val)
    ∧ rewritePoke [c0, '+'] val bv warn = none
    ∧ rewritePoke [c0, c1, '+'] val bv warn = none
    ∧ pipelineStmt false false "ansi".data ["B".data] none [] "POKE B+,5".data =
        ["POKE B+,5".data] := by
  have hnws0 : isWs c0 = false := isWs_false_of_alpha c0 h0
  have hnws1 : isWs c1 = false := isWs_false_of_alnum c1 h1
  refine ⟨?_, ?_, ?_, by decide⟩
  · have hso : sidOffset (stripWsAll "54272+".data) bv = some [] := by
      rw [show stripWsAll "54272+".data = "54272+".data from rfl, sidOffset,
        if_pos (by decide)]
      rfl
    have hpy : pyInt ([] : List Char) = none := rfl
    simp [rewritePoke, hso, hpy]
  · have hstrip : stripWsAll [c0, '+'] = [c0, '+'] := by
      rw [stripWsAll, trim_eq_self]
      · rw [List.filter_eq_self]
        intro a ha
        rcases List.mem_cons.mp ha with rfl | ha2
        · simp [hnws0]
        · rcases List.mem_cons.mp ha2 with rfl | ha3
          · decide
          · simp at ha3
      · intro c hc
        simp only [List.head?_cons, Option.some.injEq] at hc
        subst hc
        exact hnws0
      · intro c hc
        have : ([c0, '+'] : List Char).getLast? = some '+' := by
          simp [List.getLast?]
        rw [this] at hc
        cases hc
        decide
    rw [rewritePoke]
    rw [hstrip]
    have hso : sidOffset [c0, '+'] bv = none := by
      rw [sidOffset]
      rw [if_neg (by simp [List.isPrefixOf])]
      rw [if_neg (by simp [show "54272".data = ['5', '4', '2', '7', '2'] from rfl])]
      have hal : aliasMatch [c0, '+'] = none := by
        simp [aliasMatch, nameThen, h0, aliasTail]
      rw [hal]
    rw [hso]
  · have hstrip : stripWsAll [c0, c1, '+'] = [c0, c1, '+'] := by
      rw [stripWsAll, trim_eq_self]
      · rw [List.filter_eq_self]
        intro a ha
        rcases List.mem_cons.mp ha with rfl | ha2
        · simp [hnws0]
        · rcases List.mem_cons.mp ha2 with rfl | ha3
          · simp [hnws1]
          · rcases List.mem_cons.mp ha3 with rfl | ha4
            · decide
            · simp at ha4
      · intro c hc
        simp only [List.head?_cons, Option.some.injEq] at hc
        subst hc
        exact hnws0
      · intro c hc
        have : ([c0, c1, '+'] : List Char).getLast? = some '+' := by
          simp [List.getLast?]
        rw [this] at hc
        cases hc
        decide
    rw [rewritePoke, hstrip]
    have hne1 : c1 ≠ '+' := fun e => absurd (e ▸ h1) (by decide)
    have hso : sidOffset [c0, c1, '+'] bv = none := by
      rw [sidOffset]
      rw [if_neg (by simp [List.isPrefixOf])]
      rw [if_neg (by simp [show "54272".data = ['5', '4', '2', '7', '2'] from rfl])]
      have hal : aliasMatch [c0, c1, '+'] = none := by
        simp [aliasMatch, nameThen, h0, h1, aliasTail, hne1]
      rw [hal]
    rw [hso]

/-- Claim C10 witness: the bare-plus behaviour at concrete inputs. -/
theorem C10_bare_plus_witness :
    rewritePoke "54272+".data "5".data ["B".data] true =
      some ("OUT REG,".data, "OUT DAT,".data ++ trim "5".data)
    ∧ rewritePoke ['B', '+'] "5".data ["B".data] true = none :=
  ⟨(C10_bare_plus "5".data ["B".data] true 'B' '1' (by decide) (by decide)).1,
   (C10_bare_plus "5".data ["B".data] true 'B' '1' (by decide) (by decide)).2.1⟩

/-- Claim C3: the synthesized header is always the very first output line;
its number is the first numbered line number minus 5, floored at 0 (the
natural-number truncated subtraction agrees with the integer floor); with no
numbered line at all the fixed fallback number 5 is used. -/
theorem C3_header_first (opts : Opts) (lines : List (List Char)) :
    (convert opts lines).head? = some (headerLine opts lines)
    ∧ (∀ n, firstLineNum lines = some n →
        headerLine opts lines = (toString (n - 5 : Nat)).data ++ ' ' :: headerText opts
        ∧ ((n - 5 : Nat) : Int) = max 0 ((n : Int) - 5))
    ∧ (firstLineNum lines = none →
        headerLine opts lines = '5' :: ' ' :: headerText opts) := by
  refine ⟨rfl, ?_, ?_⟩
  · intro n hn
    constructor
    · rw [headerLine, hn]
      show (toString (max 0 ((n : Int) - 5))).data ++ ' ' :: headerText opts = _
      have hmax : max 0 ((n : Int) - 5) = ((n - 5 : Nat) : Int) := by omega
      rw [hmax]
      have hts : toString (((n - 5 : Nat) : Int)) = toString (n - 5 : Nat) := rfl
      rw [hts]
    · omega
  · intro hn
    rw [headerLine, hn]

/-- Claim C3 witness: first numbered line 100 gives header number 95 as the
first output line; a program with no numbered lines gets the fallback 5. -/
theorem C3_header_first_witness :
    (convert defaultOpts ["100 PRINT 1".data]).head? =
      some (headerLine defaultOpts ["100 PRINT 1".data])
    ∧ headerLine defaultOpts ["100 PRINT 1".data] =
      (toString (100 - 5 : Nat)).data ++ ' ' :: headerText defaultOpts
    ∧ headerLine defaultOpts ["PRINT".data] = '5' :: ' ' :: headerText defaultOpts :=
  ⟨(C3_header_first defaultOpts ["100 PRINT 1".data]).1,
   ((C3_header_first defaultOpts ["100 PRINT 1".data]).2.1 100 (by decide)).1,
   (C3_header_first defaultOpts ["PRINT".data]).2.2 (by decide)⟩

/-- Claim C6, counterexample: with factor 3 the statement `for T=1 to 50`
(eligible variable `T`) is rewritten to the fully normalised text
`FOR T=1 TO 150`, not the original statement with only its bound replaced
(which would be `for T=1 to 150`); and the positive factor 1 does not scale
at all. -/
theorem C6_counterexample :
    scaleStmt (some 3) ["T".data] "for T=1 to 50".data = "FOR T=1 TO 150".data
    ∧ "FOR T=1 TO 150".data ≠ "for T=1 to 150".data
    ∧ scaleStmt (some 1) ["T".data] "for T=1 to 50".data = "for T=1 to 50".data := by
  refine ⟨by decide, by decide, by decide⟩

/-- Claim C6 (amended): scaling applies only for factors at least 2 (factor
0, 1 or absent disables it); a statement matching `FOR <var> = 1 TO <lit>`
with an eligible variable is rewritten to the normalised form
`FOR <var>=1 TO <lit*factor>` (keywords uppercased, spacing normalised,
variable case preserved); any other FOR form, or an ineligible variable,
leaves the statement unchanged. -/
theorem C6_scaling_amended (f : Int) (vars : List (List Char)) (s : List Char)
    (hf : 1 < f) :
    (∀ v ds, forMatch s = some (v, ds) → v.map Char.toUpper ∈ vars →
      scaleStmt (some f) vars s =
        "FOR ".data ++ v ++ "=1 TO ".data ++ (toString ((natOfDigits ds : Int) * f)).data)
    ∧ (∀ v ds, forMatch s = some (v, ds) → v.map Char.toUpper ∉ vars →
      scaleStmt (some f) vars s = s)
    ∧ (forMatch s = none → scaleStmt (some f) vars s = s)
    ∧ scaleStmt none vars s = s
    ∧ (∀ g : Int, g ≤ 1 → scaleStmt (some g) vars s = s) := by
  refine ⟨?_, ?_, ?_, rfl, ?_⟩
  · intro v ds hm hv
    rw [scaleStmt, if_pos hf, hm]
    show (if v.map Char.toUpper ∈ vars then
        "FOR ".data ++ v ++ "=1 TO ".data ++ (toString ((natOfDigits ds : Int) * f)).data
      else s) = _
    rw [if_pos hv]
  · intro v ds hm hv
    rw [scaleStmt, if_pos hf, hm]
    show (if v.map Char.toUpper ∈ vars then
        "FOR ".data ++ v ++ "=1 TO ".data ++ (toString ((natOfDigits ds : Int) * f)).data
      else s) = s
    rw [if_neg hv]
  · intro hm
    rw [scaleStmt, if_pos hf, hm]
  · intro g hg
    rw [scaleStmt, if_neg (not_lt.mpr hg)]

/-- Claim C6 witness: factor 3 with `T` eligible scales `FOR T=1 TO 50`; the
same statement with only `W` eligible is unchanged; factor 1 is inert. -/
theorem C6_scaling_amended_witness :
    scaleStmt (some 3) ["T".data] "FOR T=1 TO 50".data =
      "FOR ".data ++ "T".data ++ "=1 TO ".data ++
        (toString ((natOfDigits "50".data : Int) * 3)).data
    ∧ scaleStmt (some 3) ["W".data] "FOR T=1 TO 50".data = "FOR T=1 TO 50".data
    ∧ scaleStmt (some 1) ["T".data] "FOR T=1 TO 50".data = "FOR T=1 TO 50".data :=
  ⟨(C6_scaling_amended 3 ["T".data] "FOR T=1 TO 50".data (by decide)).1
      "T".data "50".data (by decide) (by decide),
   (C6_scaling_amended 3 ["W".data] "FOR T=1 TO 50".data (by decide)).2.1
      "T".data "50".data (by decide) (by decide),
   (C6_scaling_amended 3 ["T".data] "FOR T=1 TO 50".data (by decide)).2.2.2.2 1
      (by decide)⟩

theorem mem_of_getLast?_eq (l : List Char) (c : Char) (h : l.getLast? = some c) : c ∈ l := by
  induction l with
  | nil => cases h
  | cons a t ih =>
    cases t with
    | nil =>
      have h2 : some a = some c := h
      simp only [Option.some.injEq] at h2
      subst h2
      exact List.mem_singleton_self a
    | cons b t2 =>
      rw [List.getLast?_cons_cons] at h
      exact List.mem_cons_of_mem a (ih h)

theorem trim_getLast_not_ws (l : List Char) (c : Char)
    (h : (trim l).getLast? = some c) : isWs c = false := by
  rw [trim, rstrip, List.getLast?_reverse] at h
  exact head_lstrip_not_ws _ c h

theorem ciPrefixP_out (r : List Char) : ciPrefix "POKE".data ('O' :: r) = none := by
  show (if ('O'.toUpper = 'P') then ciPrefix "OKE".data r else none) = none
  rw [if_neg (by decide)]

theorem ciPrefixG_out (r : List Char) : ciPrefix "GET".data ('O' :: r) = none := by
  show (if ('O'.toUpper = 'G') then ciPrefix "ET".data r else none) = none
  rw [if_neg (by decide)]

theorem ciPrefixF_out (r : List Char) : ciPrefix "FOR".data ('O' :: r) = none := by
  show (if ('O'.toUpper = 'F') then ciPrefix "OR".data r else none) = none
  rw [if_neg (by decide)]

theorem lstrip_out (r : List Char) : lstrip ('O' :: r) = 'O' :: r := by
  apply lstrip_eq_self
  intro c hc
  simp only [List.head?_cons, Option.some.injEq] at hc
  subst hc
  decide

theorem pokeMatch_out (r : List Char) : pokeMatch ('O' :: r) = none := by
  rw [pokeMatch, lstrip_out, ciPrefixP_out]

theorem getMatch_out (r : List Char) : getMatch ('O' :: r) = none := by
  rw [getMatch, lstrip_out, ciPrefixG_out]

theorem forMatch_out (r : List Char) : forMatch ('O' :: r) = none := by
  rw [forMatch, lstrip_out, ciPrefixF_out]

theorem aliasTail_some_mem (r off : List Char) (h : aliasTail r = some (some off)) :
    ∀ c ∈ off, c ∈ r := by
  cases r with
  | nil =>
    have h2 : (some (none : Option (List Char))) = some (some off) := h
    simp at h2
  | cons c rest =>
    by_cases hc : c = '+'
    · cases rest with
      | nil =>
        have h2 : aliasTail [c] = none := by subst hc; rfl
        rw [h2] at h
        cases h
      | cons d ds =>
        have h2 : aliasTail (c :: d :: ds) = some (some (d :: ds)) := by subst hc; rfl
        rw [h2] at h
        simp only [Option.some.injEq] at h
        rw [← h]
        intro x hx
        exact List.mem_cons_of_mem c hx
    · have h2 : aliasTail (c :: rest) = none := by
        simp [aliasTail, hc]
      rw [h2] at h
      cases h

theorem aliasMatch_offset_mem (l nm off : List Char)
    (h : aliasMatch l = some (nm, some off)) : ∀ c ∈ off, c ∈ l := by
  cases l with
  | nil => simp [aliasMatch, nameThen] at h
  | cons c0 rest0 =>
    by_cases h0 : c0.isAlpha = true
    · cases rest0 with
      | nil =>
        have he : aliasMatch [c0] = some ([c0], none) := by
          simp [aliasMatch, nameThen, h0, aliasTail]
        rw [he] at h
        simp at h
      | cons c1 rest1 =>
        have hfall : ∀ o, aliasTail (c1 :: rest1) = some o →
            some ([c0], o) = some (nm, some off) → ∀ c ∈ off, c ∈ c0 :: c1 :: rest1 := by
          intro o ht0 hh c hc
          simp only [Option.some.injEq, Prod.mk.injEq] at hh
          obtain ⟨-, ho⟩ := hh
          subst ho
          exact List.mem_cons_of_mem c0 (aliasTail_some_mem (c1 :: rest1) off ht0 c hc)
        by_cases h1 : c1.isAlphanum = true
        · cases ht1 : aliasTail rest1 with
          | some o =>
            have he : aliasMatch (c0 :: c1 :: rest1) = some ([c0, c1], o) := by
              simp [aliasMatch, nameThen, h0, h1, ht1]
            rw [he] at h
            simp only [Option.some.injEq, Prod.mk.injEq] at h
            obtain ⟨-, ho⟩ := h
            subst ho
            intro c hc
            exact List.mem_cons_of_mem c0
              (List.mem_cons_of_mem c1 (aliasTail_some_mem rest1 off ht1 c hc))
          | none =>
            cases ht0 : aliasTail (c1 :: rest1) with
            | none =>
              have he : aliasMatch (c0 :: c1 :: rest1) = none := by
                simp [aliasMatch, nameThen, h0, h1, ht1, ht0]
              rw [he] at h
              cases h
            | some o =>
              have he : aliasMatch (c0 :: c1 :: rest1) = some ([c0], o) := by
                simp [aliasMatch, nameThen, h0, h1, ht1, ht0]
              rw [he] at h
              exact hfall o ht0 h
        · cases ht0 : aliasTail (c1 :: rest1) with
          | none =>
            have he : aliasMatch (c0 :: c1 :: rest1) = none := by
              simp [aliasMatch, nameThen, h0, h1, ht0]
            rw [he] at h
            cases h
          | some o =>
            have he : aliasMatch (c0 :: c1 :: rest1) = some ([c0], o) := by
              simp [aliasMatch, nameThen, h0, h1, ht0]
            rw [he] at h
            exact hfall o ht0 h
    · have he : aliasMatch (c0 :: rest0) = none := by
        simp [aliasMatch, nameThen, h0]
      rw [he] at h
      cases h

theorem sidOffset_wsFree (noSp : List Char) (bv : List (List Char)) (off : List Char)
    (h : sidOffset noSp bv = some off) (hn : ∀ c ∈ noSp, isWs c = false) :
    ∀ c ∈ off, isWs c = false := by
  rw [sidOffset] at h
  by_cases h1 : "54272+".data.isPrefixOf noSp = true
  · rw [if_pos h1] at h
    simp only [Option.some.injEq] at h
    subst h
    intro c hc
    exact hn c (List.mem_of_mem_drop hc)
  · rw [if_neg h1] at h
    by_cases h2 : noSp = "54272".data
    · rw [if_pos h2] at h
      simp only [Option.some.injEq] at h
      subst h
      intro c hc
      rw [List.mem_singleton] at hc
      subst hc
      decide
    · rw [if_neg h2] at h
      cases hal : aliasMatch noSp with
      | none => rw [hal] at h; cases h
      | some p =>
        obtain ⟨nm, o⟩ := p
        rw [hal] at h
        have h' : (if nm.map Char.toUpper ∈ bv then some (o.getD ['0']) else none) =
            some off := h
        by_cases hm : nm.map Char.toUpper ∈ bv
        · rw [if_pos hm] at h'
          simp only [Option.some.injEq] at h'
          subst h'
          cases o with
          | none =>
            intro c hc
            have hc2 : c ∈ ['0'] := hc
            rw [List.mem_singleton] at hc2
            subst hc2
            decide
          | some off2 =>
            intro c hc
            have hc2 : c ∈ off2 := hc
            exact hn c (aliasMatch_offset_mem noSp nm off2 hal c hc2)
        · rw [if_neg hm] at h'
          cases h'

/-- The per-statement pipeline is inert on a statement that starts with a
non-whitespace `O`, ends in a non-whitespace character, and is processed
under a screen profile other than `ansi`: no matcher of the chain can fire. -/
theorem pipeline_out_stmt (mapGet warn : Bool) (profile : List Char)
    (bv : List (List Char)) (sf : Option Int) (vars : List (List Char))
    (r0 : List Char) (htrim : trim ('O' :: r0) = 'O' :: r0)
    (hprof : profile ≠ "ansi".data) :
    pipelineStmt mapGet warn profile bv sf vars ('O' :: r0) = ['O' :: r0] := by
  rw [pipelineStmt, htrim]
  have hscale : scaleStmt sf vars ('O' :: r0) = 'O' :: r0 := by
    cases sf with
    | none => rfl
    | some f =>
      rw [scaleStmt]
      by_cases h1 : 1 < f
      · rw [if_pos h1, forMatch_out]
      · rw [if_neg h1]
  rw [hscale, stmtRewriteCore]
  have hget : (if mapGet = true then getMatch ('O' :: r0) else none) = none := by
    cases mapGet
    · rfl
    · show getMatch ('O' :: r0) = none
      exact getMatch_out r0
  rw [hget, pokeMatch_out]
  show [mapChr profile ('O' :: r0)] = ['O' :: r0]
  rw [mapChr, if_neg hprof]

theorem rewritePoke_warn_out (addr val : List Char) (bv : List (List Char))
    (off : List Char) (n : Int) (h : sidOffset (stripWsAll addr) bv = some off)
    (hn : pyInt off = some n) (hr : n < 0 ∨ 24 < n) :
    rewritePoke addr val bv true = some ("OUT REG,".data ++ off,
      "OUT DAT,".data ++ trim val ++
        (" : REM WARN: SID reg ".data ++ (toString n).data ++ " out of 0-24".data)) := by
  simp [rewritePoke, h, hn, if_pos hr]

theorem rewritePoke_warn_in (addr val : List Char) (bv : List (List Char))
    (off : List Char) (n : Int) (h : sidOffset (stripWsAll addr) bv = some off)
    (hn : pyInt off = some n) (hr : ¬(n < 0 ∨ 24 < n)) :
    rewritePoke addr val bv true =
      some ("OUT REG,".data ++ off, "OUT DAT,".data ++ trim val) := by
  simp [rewritePoke, h, hn, if_neg hr]

theorem rewritePoke_warn_nonlit (addr val : List Char) (bv : List (List Char))
    (off : List Char) (h : sidOffset (stripWsAll addr) bv = some off)
    (hn : pyInt off = none) :
    rewritePoke addr val bv true =
      some ("OUT REG,".data ++ off, "OUT DAT,".data ++ trim val) := by
  simp [rewritePoke, h, hn]

theorem trim_outreg (off : List Char) (hoffws : ∀ c ∈ off, isWs c = false) :
    trim ("OUT REG,".data ++ off) = "OUT REG,".data ++ off := by
  cases off with
  | nil =>
    rw [List.append_nil]
    decide
  | cons a as =>
    apply trim_eq_self
    · intro c hc
      have hc2 : some 'O' = some c := hc
      simp only [Option.some.injEq] at hc2
      subst hc2
      decide
    · intro c hc
      rw [List.getLast?_append_cons] at hc
      exact hoffws c (mem_of_getLast?_eq (a :: as) c hc)

theorem trim_outdat_plain (v : List Char) :
    trim ("OUT DAT,".data ++ trim v) = "OUT DAT,".data ++ trim v := by
  cases htv : trim v with
  | nil =>
    rw [List.append_nil]
    decide
  | cons a as =>
    apply trim_eq_self
    · intro c hc
      have hc2 : some 'O' = some c := hc
      simp only [Option.some.injEq] at hc2
      subst hc2
      decide
    · intro c hc
      rw [List.getLast?_append_cons] at hc
      rw [← htv] at hc
      exact trim_getLast_not_ws v c hc

theorem trim_outdat_ann (v : List Char) (n : Int) :
    trim ("OUT DAT,".data ++ trim v ++
        (" : REM WARN: SID reg ".data ++ (toString n).data ++ " out of 0-24".data)) =
      "OUT DAT,".data ++ trim v ++
        (" : REM WARN: SID reg ".data ++ (toString n).data ++ " out of 0-24".data) := by
  apply trim_eq_self
  · intro c hc
    have hc2 : some 'O' = some c := hc
    simp only [Option.some.injEq] at hc2
    subst hc2
    decide
  · intro c hc
    have hassoc : "OUT DAT,".data ++ trim v ++
        (" : REM WARN: SID reg ".data ++ (toString n).data ++ " out of 0-24".data) =
        ("OUT DAT,".data ++ trim v ++ " : REM WARN: SID reg ".data ++ (toString n).data) ++
          (' ' :: "out of 0-24".data) := by
      simp [List.append_assoc]
    rw [hassoc, List.getLast?_append_cons] at hc
    have h4 : (' ' :: "out of 0-24".data).getLast? = some '4' := by decide
    rw [h4] at hc
    simp only [Option.some.injEq] at hc
    subst hc
    decide

/-- Claim C9, counterexample: the pair emitted for `POKE 54272+1,CHR$(147)`
is not left unchanged by a second run with the same (default) options: under
the default `ansi` profile the `CHR$(147)` inside the data statement is
rewritten by the screen-profile substitution. -/
theorem C9_counterexample :
    rewritePoke "54272+1".data "CHR$(147)".data [] false =
      some ("OUT REG,1".data, "OUT DAT,CHR$(147)".data)
    ∧ pipelineStmt false false "ansi".data [] none [] "OUT DAT,CHR$(147)".data ≠
        ["OUT DAT,CHR$(147)".data] := by
  refine ⟨by decide, by decide⟩

/-- Claim C9 (amended): for every pair emitted by the POKE rewriter, running
the per-statement pipeline again with any options whose screen profile is not
`ansi` leaves both statements unchanged: they no longer match the POKE
pattern (nor the FOR or GET patterns), and the profile mapping is inert.
With the `ansi` profile a mapped `CHR$(n)` call inside the offset or value
expression is still rewritten on the second run. -/
theorem C9_second_run_amended (addr val r d profile : List Char)
    (bv bv2 vars : List (List Char)) (warn warn2 mapGet : Bool) (sf : Option Int)
    (h : rewritePoke addr val bv warn = some (r, d)) (hprof : profile ≠ "ansi".data) :
    pipelineStmt mapGet warn2 profile bv2 sf vars r = [r]
    ∧ pipelineStmt mapGet warn2 profile bv2 sf vars d = [d] := by
  cases hso : sidOffset (stripWsAll addr) bv with
  | none =>
    exfalso
    have hnone : rewritePoke addr val bv warn = none := by
      simp [rewritePoke, hso]
    rw [hnone] at h
    cases h
  | some off =>
    have hoffws : ∀ c ∈ off, isWs c = false := by
      apply sidOffset_wsFree _ bv off hso
      intro c hc
      have hm := List.mem_filter.mp hc
      simpa using hm.2
    have hreg : pipelineStmt mapGet warn2 profile bv2 sf vars ("OUT REG,".data ++ off) =
        ["OUT REG,".data ++ off] :=
      pipeline_out_stmt mapGet warn2 profile bv2 sf vars ("UT REG,".data ++ off)
        (trim_outreg off hoffws) hprof
    have hdatp : pipelineStmt mapGet warn2 profile bv2 sf vars
        ("OUT DAT,".data ++ trim val) = ["OUT DAT,".data ++ trim val] :=
      pipeline_out_stmt mapGet warn2 profile bv2 sf vars ("UT DAT,".data ++ trim val)
        (trim_outdat_plain val) hprof
    cases warn with
    | false =>
      rw [rewritePoke_of_offset addr val bv off hso] at h
      simp only [Option.some.injEq, Prod.mk.injEq] at h
      obtain ⟨hr, hd⟩ := h
      subst hr
      subst hd
      exact ⟨hreg, hdatp⟩
    | true =>
      cases hpy : pyInt off with
      | none =>
        rw [rewritePoke_warn_nonlit addr val bv off hso hpy] at h
        simp only [Option.some.injEq, Prod.mk.injEq] at h
        obtain ⟨hr, hd⟩ := h
        subst hr
        subst hd
        exact ⟨hreg, hdatp⟩
      | some n =>
        by_cases hir : n < 0 ∨ 24 < n
        · rw [rewritePoke_warn_out addr val bv off n hso hpy hir] at h
          simp only [Option.some.injEq, Prod.mk.injEq] at h
          obtain ⟨hr, hd⟩ := h
          subst hr
          subst hd
          refine ⟨hreg, ?_⟩
          exact pipeline_out_stmt mapGet warn2 profile bv2 sf vars
            ("UT DAT,".data ++ trim val ++
              (" : REM WARN: SID reg ".data ++ (toString n).data ++ " out of 0-24".data))
            (trim_outdat_ann val n) hprof
        · rw [rewritePoke_warn_in addr val bv off n hso hpy hir] at h
          simp only [Option.some.injEq, Prod.mk.injEq] at h
          obtain ⟨hr, hd⟩ := h
          subst hr
          subst hd
          exact ⟨hreg, hdatp⟩

/-- Claim C9 witness: a concrete emitted pair is left unchanged by a second
pipeline run with the `none` profile. -/
theorem C9_second_run_amended_witness :
    pipelineStmt false false "none".data [] none [] "OUT REG,1".data = ["OUT REG,1".data]
    ∧ pipelineStmt false false "none".data [] none [] "OUT DAT,2".data =
        ["OUT DAT,2".data] :=
  C9_second_run_amended "54272+1".data "2".data "OUT REG,1".data "OUT DAT,2".data
    "none".data [] [] [] false false false none (by decide) (by decide)

theorem sidOffset_alias1 (bv : List (List Char)) (c0 a : Char) (as : List Char)
    (h0 : c0.isAlpha = true) (hbv : [c0.toUpper] ∈ bv) :
    sidOffset (c0 :: '+' :: a :: as) bv = some (a :: as) := by
  rw [sidOffset]
  rw [if_neg (c := ("54272+".data.isPrefixOf (c0 :: '+' :: a :: as)) = true)]
  · rw [if_neg]
    · have hal : aliasMatch (c0 :: '+' :: a :: as) = some ([c0], some (a :: as)) := by
        simp [aliasMatch, nameThen, h0, aliasTail]
      rw [hal]
      show (if List.map Char.toUpper [c0] ∈ bv then
          some ((some (a :: as)).getD ['0']) else none) = some (a :: as)
      rw [if_pos (show List.map Char.toUpper [c0] ∈ bv from hbv)]
      rfl
    · intro hcon
      have h2 := congrArg (fun l => l.get? 1) hcon
      simp at h2
  · have hexp : "54272+".data.isPrefixOf (c0 :: '+' :: a :: as) =
      (('5' == c0) && (('4' == '+') && ("272+".data.isPrefixOf (a :: as)))) := rfl
    rw [hexp, show (('4' : Char) == '+') = false from rfl]
    simp

theorem sidOffset_alias2 (bv : List (List Char)) (c0 c1 a : Char) (as : List Char)
    (h0 : c0.isAlpha = true) (h1 : c1.isAlphanum = true)
    (hbv : [c0.toUpper, c1.toUpper] ∈ bv) :
    sidOffset (c0 :: c1 :: '+' :: a :: as) bv = some (a :: as) := by
  rw [sidOffset]
  rw [if_neg (c := ("54272+".data.isPrefixOf (c0 :: c1 :: '+' :: a :: as)) = true)]
  · rw [if_neg]
    · have hal : aliasMatch (c0 :: c1 :: '+' :: a :: as) =
          some ([c0, c1], some (a :: as)) := by
        simp [aliasMatch, nameThen, h0, h1, aliasTail]
      rw [hal]
      show (if List.map Char.toUpper [c0, c1] ∈ bv then
          some ((some (a :: as)).getD ['0']) else none) = some (a :: as)
      rw [if_pos (show List.map Char.toUpper [c0, c1] ∈ bv from hbv)]
      rfl
    · intro hcon
      have h2 := congrArg (fun l => l.get? 2) hcon
      simp at h2
  · have hexp : "54272+".data.isPrefixOf (c0 :: c1 :: '+' :: a :: as) =
      (('5' == c0) && (('4' == c1) && (('2' == '+') &&
        ("72+".data.isPrefixOf (a :: as))))) := rfl
    rw [hexp, show (('2' : Char) == '+') = false from rfl]
    simp

theorem alias_wsFree (c : Char) (l : List Char) (a : Char) (as : List Char)
    (h0 : c.isAlpha = true) (hl : ∀ x ∈ l, x.isAlphanum = true)
    (hoff : ∀ x ∈ a :: as, isWs x = false) :
    stripWsAll (c :: l ++ '+' :: a :: as) = c :: l ++ '+' :: a :: as := by
  have hall : ∀ x ∈ c :: l ++ '+' :: a :: as, isWs x = false := by
    intro x hx
    rcases List.mem_cons.mp hx with rfl | hx2
    · exact isWs_false_of_alpha x h0
    · rcases List.mem_append.mp hx2 with hx3 | hx4
      · exact isWs_false_of_alnum x (hl x hx3)
      · rcases List.mem_cons.mp hx4 with rfl | hx5
        · decide
        · exact hoff x hx5
  rw [stripWsAll, trim_eq_self]
  · rw [List.filter_eq_self]
    intro x hx
    rw [Bool.not_eq_true']
    exact hall x hx
  · intro x hx
    have hx2 : some c = some x := hx
    simp only [Option.some.injEq] at hx2
    subst hx2
    exact isWs_false_of_alpha c h0
  · intro x hx
    apply hall x
    exact mem_of_getLast?_eq _ x hx

theorem splitColonAux_nocolon (st : List Char) : ∀ buf, (∀ c ∈ st, c ≠ ':') →
    splitColonAux buf st =
      if trim (buf ++ st) = [] then [] else [trim (buf ++ st)] := by
  induction st with
  | nil =>
    intro buf h
    rw [splitColonAux, List.append_nil]
  | cons c rest ih =>
    intro buf h
    rw [splitColonAux, if_neg (h c (List.mem_cons_self c rest)),
      ih (buf ++ [c]) (fun x hx => h x (List.mem_cons_of_mem c hx))]
    have : (buf ++ [c]) ++ rest = buf ++ c :: rest := by simp
    rw [this]

theorem splitColon_single (st : List Char) (hc : ∀ c ∈ st, c ≠ ':')
    (ht : trim st = st) (hne : st ≠ []) : splitColon st = [st] := by
  rw [splitColon, splitColonAux_nocolon st [] hc, List.nil_append, ht, if_neg hne]

/-- Claim C2: a statement `[LET] <v> = 54272` anywhere in a numbered line of
the program puts the uppercased one- or two-character name into the alias
set built by pass 1, regardless of the position of the line (so a POKE on an
earlier line is recognised); any tracked alias followed by `+offset` is
recognised by `rewrite_poke`; the assignment statement itself is rewritten to
`<V>=0` with the name uppercased; and the concrete forward-reference program
`10 POKE B+4,9` / `20 B=54272` converts with the POKE expanded on line 10 and
line 20 rewritten to `B=0`. -/
theorem C2_alias_tracking :
    (∀ (lines : List (List Char)) (raw : List Char) (n : Nat) (body st v : List Char),
      raw ∈ lines → lineNumMatch raw = some (n, body) → st ∈ splitColon body →
      assignBaseMatch st = some v → v.map Char.toUpper ∈ baseVarsOf lines)
    ∧ (∀ (bv : List (List Char)) (c0 a : Char) (as val : List Char),
      c0.isAlpha = true → [c0.toUpper] ∈ bv → (∀ x ∈ a :: as, isWs x = false) →
      rewritePoke (c0 :: '+' :: a :: as) val bv false =
        some ("OUT REG,".data ++ (a :: as), "OUT DAT,".data ++ trim val))
    ∧ (∀ (bv : List (List Char)) (c0 c1 a : Char) (as val : List Char),
      c0.isAlpha = true → c1.isAlphanum = true → [c0.toUpper, c1.toUpper] ∈ bv →
      (∀ x ∈ a :: as, isWs x = false) →
      rewritePoke (c0 :: c1 :: '+' :: a :: as) val bv false =
        some ("OUT REG,".data ++ (a :: as), "OUT DAT,".data ++ trim val))
    ∧ (∀ (bv : List (List Char)) (st v : List Char), assignBaseMatch st = some v →
      v.map Char.toUpper ∈ bv → (∀ c ∈ st, c ≠ ':') → trim st = st →
      baseAssignRewrite bv st = v.map Char.toUpper ++ "=0".data)
    ∧ convert defaultOpts ["10 POKE B+4,9".data, "20 B=54272".data] =
        ["5 B=0:REG=212:DAT=213".data, "10 OUT REG,4:OUT DAT,9".data, "20 B=0".data] := by
  refine ⟨?_, ?_, ?_, ?_, by decide⟩
  · intro lines raw n body st v hraw hline hst hassign
    rw [baseVarsOf]
    apply (mem_flatMapL _ lines _).mpr
    refine ⟨raw, hraw, ?_⟩
    show v.map Char.toUpper ∈ (match lineNumMatch raw with
      | some (_, body) => (splitColon body).filterMap fun st =>
          (assignBaseMatch st).map (List.map Char.toUpper)
      | none => [])
    rw [hline]
    apply List.mem_filterMap.mpr
    refine ⟨st, hst, ?_⟩
    rw [hassign]
    rfl
  · intro bv c0 a as val h0 hbv hoff
    apply rewritePoke_of_offset
    have hstrip : stripWsAll (c0 :: '+' :: a :: as) = c0 :: '+' :: a :: as :=
      alias_wsFree c0 [] a as h0 (by intro x hx; simp at hx) hoff
    rw [hstrip]
    exact sidOffset_alias1 bv c0 a as h0 hbv
  · intro bv c0 c1 a as val h0 h1 hbv hoff
    apply rewritePoke_of_offset
    have hstrip : stripWsAll (c0 :: c1 :: '+' :: a :: as) = c0 :: c1 :: '+' :: a :: as :=
      alias_wsFree c0 [c1] a as h0
        (by intro x hx; rw [List.mem_singleton] at hx; subst hx; exact h1) hoff
    rw [hstrip]
    exact sidOffset_alias2 bv c0 c1 a as h0 h1 hbv
  · intro bv st v hassign hbv hcolon htrim
    have hne : st ≠ [] := by
      intro he
      rw [he] at hassign
      cases hassign
    have hsplit : splitColon st = [st] := splitColon_single st hcolon htrim hne
    rw [baseAssignRewrite, hsplit]
    simp [hassign, hbv]
    rfl

/-- Claim C2 witness: the alias completeness, recognition and zeroing at
concrete inputs. -/
theorem C2_alias_tracking_witness :
    "B".data.map Char.toUpper ∈
      baseVarsOf ["10 POKE B+4,9".data, "20 B=54272".data]
    ∧ rewritePoke ('B' :: '+' :: '4' :: []) "9".data ["B".data] false =
        some ("OUT REG,".data ++ ('4' :: []), "OUT DAT,".data ++ trim "9".data)
    ∧ baseAssignRewrite ["B".data] "B=54272".data =
        "B".data.map Char.toUpper ++ "=0".data :=
  ⟨C2_alias_tracking.1 ["10 POKE B+4,9".data, "20 B=54272".data] "20 B=54272".data
      20 "B=54272".data "B=54272".data "B".data (by decide) (by decide) (by decide)
      (by decide),
   C2_alias_tracking.2.1 ["B".data] 'B' '4' [] "9".data (by decide) (by decide)
      (by decide),
   C2_alias_tracking.2.2.2.1 ["B".data] "B=54272".data "B".data (by decide) (by decide)
      (by decide) (by decide)⟩

end Sidconv
